import Mathlib

/- Verification of the FCEUX REST API command core
   (src/drivers/Qt/RestApi) against its specification.

   The C++ sources are embedded shallowly: machine integers become Nat
   (with explicit wrap-around where the C++ can overflow), fallible code
   returns Except, and the mutable queue, overlay-mask and pending-release
   state is passed explicitly.  Each definition cites the source file and
   lines it embeds. -/

/-! ## Command queue (CommandQueue.h / CommandQueue.cpp) -/

/-- `DEFAULT_MAX_SIZE` (CommandQueue.h:28): default capacity bound of the
command queue. -/
def DEFAULT_MAX_SIZE : Nat := 1000

/-- The bounded FIFO command queue (CommandQueue.h:24-98).  `commands` is
the contents of the underlying `std::queue`, front first; `maxQueueSize`
is the capacity bound fixed at construction. -/
structure CommandQueue (α : Type) where
  commands : List α
  maxQueueSize : Nat
deriving DecidableEq

/-- `CommandQueue::push` (CommandQueue.cpp:14-28).  The argument is a
`unique_ptr` which may be null (`none`).  A null command is rejected; a
full queue (`size >= maxQueueSize`) rejects the push without change;
otherwise the command is appended at the back and the push succeeds. -/
def CommandQueue.push {α : Type} (q : CommandQueue α) (cmd : Option α) :
    Bool × CommandQueue α :=
  match cmd with
  | none => (false, q)
  | some c =>
    if q.commands.length ≥ q.maxQueueSize then
      (false, q)
    else
      (true, { q with commands := q.commands ++ [c] })

/-- `CommandQueue::tryPop` (CommandQueue.cpp:30-40): remove and return the
front command, or `none` on an empty queue. -/
def CommandQueue.tryPop {α : Type} (q : CommandQueue α) :
    Option α × CommandQueue α :=
  match q.commands with
  | [] => (none, q)
  | c :: rest => (some c, { q with commands := rest })

/-- The loop body of `CommandQueue::clear` (CommandQueue.cpp:57-65): take
each queued command front to back, run its cancellation hook on it, and
collect the cancelled commands in the order they were discarded. -/
def cancelAll {α : Type} (cancel : α → α) : List α → List α
  | [] => []
  | c :: rest => cancel c :: cancelAll cancel rest

/-- `CommandQueue::clear` (CommandQueue.cpp:52-66): under the queue lock,
pop every element, calling the virtual cancellation hook of each with the
queue-cleared error before discarding it.  The hook is passed as a
function (virtual dispatch); the second component is the sequence of
discarded commands after their hook ran, kept so the theorems can observe
what happened to each removed command. -/
def CommandQueue.clear {α : Type} (q : CommandQueue α) (cancel : α → α) :
    CommandQueue α × List α :=
  ({ q with commands := [] }, cancelAll cancel q.commands)

/-- Draining: call `tryPop` repeatedly until it reports an empty queue,
collecting the popped commands in order (the drain loop in
fceuWrapper/test_queue.cpp, and the Drain Step of the spec). -/
def CommandQueue.drain {α : Type} (q : CommandQueue α) : List α :=
  match hp : q.tryPop with
  | (some c, q2) => c :: q2.drain
  | (none, _) => []
termination_by q.commands.length
decreasing_by
  simp only [CommandQueue.tryPop] at hp
  cases hq : q.commands with
  | nil => rw [hq] at hp; simp at hp
  | cons c0 rest =>
    rw [hq] at hp
    simp only [Prod.mk.injEq] at hp
    rw [← hp.2]
    simp [hq]

/-- Pushing a list of (non-null) commands one after another, recording for
each whether `push` accepted it. -/
def CommandQueue.pushAll {α : Type} (q : CommandQueue α) :
    List α → CommandQueue α × List Bool
  | [] => (q, [])
  | c :: rest =>
    let r := q.push (some c)
    let r2 := r.2.pushAll rest
    (r2.1, r.1 :: r2.2)

theorem cancelAll_eq_map {α : Type} (cancel : α → α) (l : List α) :
    cancelAll cancel l = l.map cancel := by
  induction l with
  | nil => rfl
  | cons c rest ih => simp [cancelAll, ih]

theorem drain_eq_commands {α : Type} (q : CommandQueue α) :
    q.drain = q.commands := by
  generalize hn : q.commands.length = n
  induction n generalizing q with
  | zero =>
    rw [CommandQueue.drain]
    split
    · rename_i c q2 hp
      cases hq : q.commands with
      | nil => simp [CommandQueue.tryPop, hq] at hp
      | cons c0 rest => rw [hq] at hn; simp at hn
    · rename_i q2 hp
      cases hq : q.commands with
      | nil => rfl
      | cons c0 rest => rw [hq] at hn; simp at hn
  | succ n ih =>
    rw [CommandQueue.drain]
    split
    · rename_i c q2 hp
      cases hq : q.commands with
      | nil => rw [hq] at hn; simp at hn
      | cons c0 rest =>
        simp only [CommandQueue.tryPop, hq, Prod.mk.injEq,
          Option.some.injEq] at hp
        obtain ⟨hc, hq2⟩ := hp
        have hlen : ({ q with commands := rest } : CommandQueue α).commands.length = n := by
          rw [hq] at hn
          simpa using hn
        rw [← hq2, ih { q with commands := rest } hlen]
        simp [hc]
    · rename_i q2 hp
      cases hq : q.commands with
      | nil => rfl
      | cons c0 rest => simp [CommandQueue.tryPop, hq] at hp

theorem pushAll_commands_of_accepted {α : Type} (q : CommandQueue α)
    (cs : List α) (hall : ∀ b ∈ (q.pushAll cs).2, b = true) :
    (q.pushAll cs).1.commands = q.commands ++ cs := by
  induction cs generalizing q with
  | nil => simp [CommandQueue.pushAll]
  | cons c rest ih =>
    simp only [CommandQueue.pushAll] at hall ⊢
    have hc : (q.push (some c)).1 = true := hall _ (by simp)
    have hrest : ∀ b ∈ ((q.push (some c)).2.pushAll rest).2, b = true := by
      intro b hb
      exact hall b (by simp [hb])
    by_cases hfull : q.commands.length ≥ q.maxQueueSize
    · simp [CommandQueue.push, hfull] at hc
    · have hpush : q.push (some c)
          = (true, { q with commands := q.commands ++ [c] }) := by
        simp [CommandQueue.push, hfull]
      rw [hpush] at hrest ⊢
      rw [ih _ hrest]
      simp

theorem pushAll_ok {α : Type} (q : CommandQueue α) (cs : List α)
    (h : q.commands.length + cs.length ≤ q.maxQueueSize) :
    q.pushAll cs
      = ({ q with commands := q.commands ++ cs },
         List.replicate cs.length true) := by
  induction cs generalizing q with
  | nil => simp [CommandQueue.pushAll]
  | cons c rest ih =>
    have hroom : ¬ q.commands.length ≥ q.maxQueueSize := by
      simp at h ⊢
      omega
    simp only [CommandQueue.pushAll, CommandQueue.push, hroom, if_neg,
      ge_iff_le, not_false_eq_true]
    rw [ih { q with commands := q.commands ++ [c] } (by simp at h ⊢; omega)]
    simp [List.replicate]

/-- C3: draining a queue after a run of accepted pushes yields the prior
contents followed by exactly the pushed commands, in submission order. -/
theorem commandQueue_fifo_c3 {α : Type} (q : CommandQueue α) (cs : List α)
    (hall : ∀ b ∈ (q.pushAll cs).2, b = true) :
    (q.pushAll cs).1.drain = q.commands ++ cs := by
  rw [drain_eq_commands]
  exact pushAll_commands_of_accepted q cs hall

theorem commandQueue_fifo_c3_witness :
    (∀ b ∈ ((CommandQueue.mk ([] : List Nat) DEFAULT_MAX_SIZE).pushAll
        [10, 20, 30]).2, b = true)
    ∧ ((CommandQueue.mk ([] : List Nat) DEFAULT_MAX_SIZE).pushAll
        [10, 20, 30]).1.drain = [10, 20, 30] := by
  refine ⟨by decide, ?_⟩
  exact commandQueue_fifo_c3 _ [10, 20, 30] (by decide)

/-- C4: push rejects null and full-queue pushes without modifying the
queue, otherwise appends; the size bound is preserved by push, tryPop and
clear; and from empty, `maxQueueSize` pushes succeed, the next fails, and
after one tryPop one further push succeeds. -/
theorem commandQueue_capacity_c4 {α : Type} (q : CommandQueue α) (c : α)
    (co : Option α) (cancel : α → α) (m : Nat) (cs : List α)
    (hm : 1 ≤ m) (hcs : cs.length = m) :
    q.push none = (false, q)
    ∧ (q.maxQueueSize ≤ q.commands.length → q.push co = (false, q))
    ∧ (q.commands.length < q.maxQueueSize →
        q.push (some c) = (true, { q with commands := q.commands ++ [c] }))
    ∧ (q.commands.length ≤ q.maxQueueSize →
        (q.push co).2.commands.length ≤ q.maxQueueSize)
    ∧ (q.commands.length ≤ q.maxQueueSize →
        q.tryPop.2.commands.length ≤ q.maxQueueSize)
    ∧ (q.clear cancel).1.commands.length ≤ q.maxQueueSize
    ∧ ((CommandQueue.mk ([] : List α) m).pushAll cs).2
        = List.replicate m true
    ∧ (((CommandQueue.mk ([] : List α) m).pushAll cs).1.push (some c)).1
        = false
    ∧ ((((CommandQueue.mk ([] : List α) m).pushAll cs).1.tryPop.2.push
        (some c)).1) = true := by
  have hfull : (CommandQueue.mk ([] : List α) m).pushAll cs
      = (CommandQueue.mk cs m, List.replicate m true) := by
    have := pushAll_ok (CommandQueue.mk ([] : List α) m) cs (by simp [hcs])
    simpa [hcs] using this
  refine ⟨rfl, ?_, ?_, ?_, ?_, ?_, ?_, ?_, ?_⟩
  · intro h
    cases co with
    | none => rfl
    | some c0 => simp [CommandQueue.push, h]
  · intro h
    simp [CommandQueue.push, Nat.not_le.mpr h]
  · intro h
    cases co with
    | none => simpa [CommandQueue.push]
    | some c0 =>
      by_cases hfull2 : q.commands.length ≥ q.maxQueueSize
      · simpa [CommandQueue.push, hfull2]
      · simp only [CommandQueue.push, hfull2, if_neg, ge_iff_le,
          not_false_eq_true]
        simp at hfull2 ⊢
        omega
  · intro h
    cases hq : q.commands with
    | nil => simp [CommandQueue.tryPop, hq, h]
    | cons c0 rest =>
      simp only [CommandQueue.tryPop, hq]
      rw [hq] at h
      simp at h ⊢
      omega
  · simp [CommandQueue.clear]
  · rw [hfull]
  · rw [hfull]
    simp [CommandQueue.push, hcs]
  · rw [hfull]
    cases hcs2 : cs with
    | nil => rw [hcs2] at hcs; simp at hcs; omega
    | cons c0 rest =>
      simp only [CommandQueue.tryPop, CommandQueue.push]
      rw [hcs2] at hcs
      simp at hcs
      have : rest.length < m := by omega
      simp [Nat.not_le.mpr this]

theorem commandQueue_capacity_c4_witness :
    (1 ≤ 2 ∧ ([5, 6] : List Nat).length = 2)
    ∧ (((CommandQueue.mk ([] : List Nat) 2).pushAll [5, 6]).1.push
        (some 7)).1 = false
    ∧ ((((CommandQueue.mk ([] : List Nat) 2).pushAll [5, 6]).1.tryPop.2.push
        (some 7)).1) = true := by
  refine ⟨⟨by decide, by decide⟩, ?_, ?_⟩
  · exact (commandQueue_capacity_c4 (CommandQueue.mk ([] : List Nat) 2) 7
      none id 2 [5, 6] (by decide) (by decide)).2.2.2.2.2.2.2.1
  · exact (commandQueue_capacity_c4 (CommandQueue.mk ([] : List Nat) 2) 7
      none id 2 [5, 6] (by decide) (by decide)).2.2.2.2.2.2.2.2

/-! ## Commands and their result channels (RestApiCommands.h) -/

/-- State of the one-shot result channel of a command
(`std::promise` in ApiCommandWithResult, RestApiCommands.h:44-75): still
unresolved, resolved with a (type-erased) value, or resolved with an
error. -/
inductive ChannelState where
  | unresolved : ChannelState
  | value : Nat → ChannelState
  | error : String → ChannelState
deriving DecidableEq

/-- An ApiCommand as the queue sees it (RestApiCommands.h:15-33): a
diagnostic name plus the state of its result channel. -/
structure ApiCommand where
  name : String
  chan : ChannelState
deriving DecidableEq

/-- Modelled from the spec: `ApiCommand::cancel(eptr)` — the virtual
cancellation hook called by `CommandQueue::clear`; its body is not under
src/ (only the call site in CommandQueue.cpp:61 and the set-once helper
`setException` in RestApiCommands.h:68-74 are).  Per the spec it resolves
the result channel of the command with the given error, and per
`setException` an already-satisfied promise is left unchanged. -/
def ApiCommand.cancel (c : ApiCommand) (err : String) : ApiCommand :=
  match c.chan with
  | .unresolved => { c with chan := .error err }
  | _ => c

/-- The error text used by `CommandQueue::clear` (CommandQueue.cpp:62). -/
def queueClearedError : String :=
  "Command queue cleared - operation cancelled"

/-- C2: clearing a queue in any state empties it, runs the cancellation
hook with the queue-cleared error on every removed command in order, and
leaves no removed command with an unresolved result channel; commands that
were still pending end up resolved with exactly the cancellation error. -/
theorem commandQueue_clear_c2 (q : CommandQueue ApiCommand) :
    (q.clear (fun c => c.cancel queueClearedError)).1.commands = []
    ∧ (q.clear (fun c => c.cancel queueClearedError)).2
        = q.commands.map (fun c => c.cancel queueClearedError)
    ∧ (∀ c ∈ (q.clear (fun c => c.cancel queueClearedError)).2,
        c.chan ≠ ChannelState.unresolved)
    ∧ (∀ c ∈ q.commands, c.chan = ChannelState.unresolved →
        (c.cancel queueClearedError).chan
          = ChannelState.error queueClearedError) := by
  refine ⟨rfl, cancelAll_eq_map _ _, ?_, ?_⟩
  · intro c hc
    rw [CommandQueue.clear] at hc
    simp only at hc
    rw [cancelAll_eq_map] at hc
    simp only [List.mem_map] at hc
    obtain ⟨c0, _, hc0⟩ := hc
    rw [← hc0]
    cases h0 : c0.chan <;> simp [ApiCommand.cancel, h0]
  · intro c _ hun
    rw [ApiCommand.cancel, hun]

theorem commandQueue_clear_c2_witness :
    ((CommandQueue.mk
        [ApiCommand.mk "read" ChannelState.unresolved,
         ApiCommand.mk "write" (ChannelState.value 3)] 1000).clear
      (fun c => c.cancel queueClearedError)).1.commands = []
    ∧ ((CommandQueue.mk
        [ApiCommand.mk "read" ChannelState.unresolved,
         ApiCommand.mk "write" (ChannelState.value 3)] 1000).clear
      (fun c => c.cancel queueClearedError)).2
        = [ApiCommand.mk "read" (ChannelState.error queueClearedError),
           ApiCommand.mk "write" (ChannelState.value 3)] := by
  refine ⟨(commandQueue_clear_c2 _).1, ?_⟩
  rw [(commandQueue_clear_c2 (CommandQueue.mk
        [ApiCommand.mk "read" ChannelState.unresolved,
         ApiCommand.mk "write" (ChannelState.value 3)] 1000)).2.1]
  rfl

/-! ## Input overlay masks (InputApi.cpp) -/

/-- The API input overlay state (InputApi.cpp:3-5): `apiJoypadMask1` is
the per-port AND mask (pass-through value 0xFF), `apiJoypadMask2` the
per-port OR mask (pass-through value 0x00).  The two four-element uint8
arrays are modelled as functions from the port index; all mask values of
interest are bytes (< 256). -/
structure InputApiState where
  apiJoypadMask1 : Nat → Nat
  apiJoypadMask2 : Nat → Nat

/-- `FCEU_ApiInputInit` (InputApi.cpp:7-13): every port starts (and is
reset to) pass-through. -/
def FCEU_ApiInputInit : InputApiState :=
  { apiJoypadMask1 := fun _ => 0xFF, apiJoypadMask2 := fun _ => 0x00 }

/-- `FCEU_ApiReadJoypad` (InputApi.cpp:15-27): apply the overlay to the
raw joypad byte — AND with mask1, OR with mask2 — then reset both masks
of that port to pass-through (single-frame effect). -/
def FCEU_ApiReadJoypad (s : InputApiState) (which : Nat) (joyl : Nat) :
    Nat × InputApiState :=
  ((joyl &&& s.apiJoypadMask1 which) ||| s.apiJoypadMask2 which,
   { apiJoypadMask1 := Function.update s.apiJoypadMask1 which 0xFF,
     apiJoypadMask2 := Function.update s.apiJoypadMask2 which 0x00 })

/-- `FCEU_ApiSetJoypad` (InputApi.cpp:29-39).  `which` is an `int`
checked against 0..3 (a Nat cannot be negative, so only the upper check
remains); out of range the call is a no-op.  With `force` the buttons are
OR-ed into mask2; otherwise `mask1 &= ~buttonMask`, where the uint8
complement of a byte-sized mask is `0xFF ^^^ buttonMask`. -/
def FCEU_ApiSetJoypad (s : InputApiState) (which : Nat) (buttonMask : Nat)
    (force : Bool) : InputApiState :=
  if which > 3 then s
  else if force then
    let v := s.apiJoypadMask2 which ||| buttonMask
    { s with apiJoypadMask2 := Function.update s.apiJoypadMask2 which v }
  else
    let v := s.apiJoypadMask1 which &&& (0xFF ^^^ buttonMask)
    { s with apiJoypadMask1 := Function.update s.apiJoypadMask1 which v }

theorem byte_land_255 (raw : Nat) (h : raw < 256) : raw &&& 0xFF = raw := by
  have h2 := Nat.and_pow_two_sub_one_eq_mod raw 8
  norm_num at h2
  rw [h2]
  exact Nat.mod_eq_of_lt h

theorem lor_land_absorb (x a : Nat) : (x ||| a) &&& a = a := by
  apply Nat.eq_of_testBit_eq
  intro i
  simp only [Nat.testBit_land, Nat.testBit_lor]
  cases a.testBit i <;> simp

/-- C5: sampling a port applies `(raw AND mask1) OR mask2` and resets that
port to pass-through, so a second sample with no intervening setForced
returns the raw byte unchanged. -/
theorem inputApi_sample_c5 (s : InputApiState) (which raw : Nat)
    (hw : which ≤ 3) (hraw : raw < 256) :
    (FCEU_ApiReadJoypad s which raw).1
        = ((raw &&& s.apiJoypadMask1 which) ||| s.apiJoypadMask2 which)
    ∧ (FCEU_ApiReadJoypad s which raw).2.apiJoypadMask1 which = 0xFF
    ∧ (FCEU_ApiReadJoypad s which raw).2.apiJoypadMask2 which = 0x00
    ∧ (FCEU_ApiReadJoypad (FCEU_ApiReadJoypad s which raw).2 which raw).1
        = raw := by
  refine ⟨rfl, ?_, ?_, ?_⟩
  · simp [FCEU_ApiReadJoypad]
  · simp [FCEU_ApiReadJoypad]
  · simp only [FCEU_ApiReadJoypad, Function.update_same]
    rw [byte_land_255 raw hraw]
    simp

theorem inputApi_sample_c5_witness :
    (1 ≤ 3 ∧ 0xA5 < 256)
    ∧ (FCEU_ApiReadJoypad
        (FCEU_ApiReadJoypad FCEU_ApiInputInit 1 0xA5).2 1 0xA5).1 = 0xA5 := by
  exact ⟨⟨by decide, by decide⟩,
    (inputApi_sample_c5 FCEU_ApiInputInit 1 0xA5 (by decide) (by decide)).2.2.2⟩

/-- C6: force-on calls OR-accumulate into mask2 without touching mask1,
force-off calls AND-accumulate the complement into mask1, and sampling a
pass-through port after forcing A then B on returns the raw byte with all
A and B bits set. -/
theorem inputApi_compose_c6 (s : InputApiState) (which A B raw : Nat)
    (hw : which ≤ 3) (hA : A < 256) (hB : B < 256) (hraw : raw < 256) :
    ((FCEU_ApiSetJoypad (FCEU_ApiSetJoypad s which A true) which B
        true).apiJoypadMask2 which = (s.apiJoypadMask2 which ||| A) ||| B)
    ∧ ((FCEU_ApiSetJoypad (FCEU_ApiSetJoypad s which A true) which B
        true).apiJoypadMask1 which = s.apiJoypadMask1 which)
    ∧ ((FCEU_ApiSetJoypad (FCEU_ApiSetJoypad s which A false) which B
        false).apiJoypadMask1 which
          = (s.apiJoypadMask1 which &&& (0xFF ^^^ A)) &&& (0xFF ^^^ B))
    ∧ (s.apiJoypadMask1 which = 0xFF → s.apiJoypadMask2 which = 0x00 →
        (FCEU_ApiReadJoypad
            (FCEU_ApiSetJoypad (FCEU_ApiSetJoypad s which A true) which B
              true) which raw).1 = raw ||| (A ||| B)
        ∧ ((FCEU_ApiReadJoypad
            (FCEU_ApiSetJoypad (FCEU_ApiSetJoypad s which A true) which B
              true) which raw).1 &&& A = A)
        ∧ ((FCEU_ApiReadJoypad
            (FCEU_ApiSetJoypad (FCEU_ApiSetJoypad s which A true) which B
              true) which raw).1 &&& B = B)) := by
  have hw2 : ¬ which > 3 := Nat.not_lt.mpr hw
  refine ⟨?_, ?_, ?_, ?_⟩
  · simp [FCEU_ApiSetJoypad, hw2]
  · simp [FCEU_ApiSetJoypad, hw2]
  · simp [FCEU_ApiSetJoypad, hw2, Nat.land_assoc]
  · intro hm1 hm2
    have hres : (FCEU_ApiReadJoypad
        (FCEU_ApiSetJoypad (FCEU_ApiSetJoypad s which A true) which B
          true) which raw).1 = raw ||| (A ||| B) := by
      simp [FCEU_ApiReadJoypad, FCEU_ApiSetJoypad, hw2, hm1, hm2,
        byte_land_255 raw hraw, Nat.lor_assoc]
    refine ⟨hres, ?_, ?_⟩
    · rw [hres]
      rw [show raw ||| (A ||| B) = (raw ||| B) ||| A by
        rw [Nat.lor_assoc, Nat.lor_comm A B]]
      exact lor_land_absorb _ _
    · rw [hres]
      rw [← Nat.lor_assoc]
      exact lor_land_absorb _ _

theorem inputApi_compose_c6_witness :
    (2 ≤ 3 ∧ 0x01 < 256 ∧ 0x02 < 256 ∧ 0x10 < 256)
    ∧ (FCEU_ApiReadJoypad
        (FCEU_ApiSetJoypad (FCEU_ApiSetJoypad FCEU_ApiInputInit 2 0x01 true)
          2 0x02 true) 2 0x10).1 = 0x10 ||| (0x01 ||| 0x02) := by
  refine ⟨⟨by decide, by decide, by decide, by decide⟩, ?_⟩
  exact ((inputApi_compose_c6 FCEU_ApiInputInit 2 0x01 0x02 0x10 (by decide)
    (by decide) (by decide) (by decide)).2.2.2 rfl rfl).1

/-! ## Pending timed releases (Commands/InputCommands.cpp) -/

/-- A pending timed release entry (InputCommands.h, filled by
`InputReleaseManager::addPendingRelease`, InputCommands.cpp:52-55): clear
`buttonMask` from the force-on mask of `port` once the frame counter
reaches `releaseFrame`. -/
structure PendingRelease where
  port : Nat
  buttonMask : Nat
  releaseFrame : Nat
deriving DecidableEq

/-- `InputReleaseManager::processPendingReleases`
(InputCommands.cpp:57-78): walk the pending list in order; every entry
already due (`currentFrame >= releaseFrame`) clears its buttons from
`apiJoypadMask2` of its port and is erased, later entries seeing the mask
updates of earlier ones; the rest stay, in order.  Takes and returns the
`apiJoypadMask2` array. -/
def processPendingReleases (currentFrame : Nat) :
    List PendingRelease → (Nat → Nat) → (Nat → Nat) × List PendingRelease
  | [], mask2 => (mask2, [])
  | e :: rest, mask2 =>
    if e.releaseFrame ≤ currentFrame then
      let v := mask2 e.port &&& (0xFF ^^^ e.buttonMask)
      processPendingReleases currentFrame rest (Function.update mask2 e.port v)
    else
      let r := processPendingReleases currentFrame rest mask2
      (r.1, e :: r.2)

/-- The union of the button bits of all entries on port `p` that are due
at `currentFrame` — the bits one scheduler tick will clear there. -/
def dueMask (currentFrame p : Nat) : List PendingRelease → Nat
  | [] => 0
  | e :: rest =>
    (if e.releaseFrame ≤ currentFrame ∧ e.port = p then e.buttonMask else 0)
      ||| dueMask currentFrame p rest

theorem testBit_255 (i : Nat) : (0xFF : Nat).testBit i = decide (i < 8) := by
  have h := Nat.testBit_two_pow_sub_one 8 i
  norm_num at h
  exact h

theorem testBit_byte_high (b i : Nat) (hb : b < 256) (hi : ¬ i < 8) :
    b.testBit i = false := by
  apply Nat.testBit_lt_two_pow
  calc b < 256 := hb
  _ = 2 ^ 8 := by norm_num
  _ ≤ 2 ^ i := Nat.pow_le_pow_right (by norm_num) (Nat.not_lt.mp hi)

theorem land_compl8_pair (a b c : Nat) (hb : b < 256) (hc : c < 256) :
    (a &&& (0xFF ^^^ b)) &&& (0xFF ^^^ c) = a &&& (0xFF ^^^ (b ||| c)) := by
  apply Nat.eq_of_testBit_eq
  intro i
  simp only [Nat.testBit_land, Nat.testBit_xor, Nat.testBit_lor, testBit_255]
  by_cases hi : i < 8
  · have hd : decide (i < 8) = true := by simp [hi]
    rw [hd]
    cases a.testBit i <;> cases b.testBit i <;> cases c.testBit i <;> rfl
  · simp [testBit_byte_high b i hb hi, testBit_byte_high c i hc hi, hi]

theorem dueMask_lt (currentFrame p : Nat) (l : List PendingRelease)
    (h : ∀ e ∈ l, e.buttonMask < 256) : dueMask currentFrame p l < 256 := by
  induction l with
  | nil => simp [dueMask]
  | cons e rest ih =>
    have h1 : (if e.releaseFrame ≤ currentFrame ∧ e.port = p
        then e.buttonMask else 0) < 256 := by
      split
      · exact h e (by simp)
      · norm_num
    have h2 : dueMask currentFrame p rest < 256 :=
      ih (fun e2 he2 => h e2 (by simp [he2]))
    have h256 : (256 : Nat) = 2 ^ 8 := by norm_num
    rw [dueMask, h256]
    rw [h256] at h1 h2
    exact Nat.or_lt_two_pow h1 h2

/-- C7: one scheduler tick removes exactly the due entries (keeping the
rest in order) and clears from the force-on mask of each port exactly the
union of the due button bits there. -/
theorem inputRelease_tick_c7 (f : Nat) (pending : List PendingRelease)
    (mask2 : Nat → Nat) (hmask : ∀ p, mask2 p < 256)
    (hbtn : ∀ e ∈ pending, e.buttonMask < 256) :
    (processPendingReleases f pending mask2).2
        = pending.filter (fun e => decide (f < e.releaseFrame))
    ∧ ∀ p, (processPendingReleases f pending mask2).1 p
        = mask2 p &&& (0xFF ^^^ dueMask f p pending) := by
  induction pending generalizing mask2 with
  | nil =>
    refine ⟨rfl, fun p => ?_⟩
    simp only [processPendingReleases, dueMask]
    rw [Nat.xor_zero, byte_land_255 _ (hmask p)]
  | cons e rest ih =>
    by_cases hdue : e.releaseFrame ≤ f
    · have hupd : ∀ p, (Function.update mask2 e.port
          (mask2 e.port &&& (0xFF ^^^ e.buttonMask))) p < 256 := by
        intro p
        by_cases hp : p = e.port
        · rw [hp, Function.update_same]
          exact lt_of_le_of_lt Nat.and_le_left (hmask e.port)
        · rw [Function.update_noteq hp]
          exact hmask p
      have ihr := ih (Function.update mask2 e.port
          (mask2 e.port &&& (0xFF ^^^ e.buttonMask))) hupd
        (fun e2 he2 => hbtn e2 (by simp [he2]))
      refine ⟨?_, fun p => ?_⟩
      · rw [processPendingReleases]
        simp only [hdue, if_pos]
        rw [ihr.1]
        have : decide (f < e.releaseFrame) = false := by
          simp [Nat.not_lt.mpr hdue]
        simp [List.filter, this]
      · rw [processPendingReleases]
        simp only [hdue, if_pos]
        rw [ihr.2 p]
        by_cases hp : p = e.port
        · subst hp
          rw [Function.update_same]
          rw [land_compl8_pair _ _ _ (hbtn e (by simp))
            (dueMask_lt f e.port rest (fun e2 he2 => hbtn e2 (by simp [he2])))]
          rw [dueMask]
          simp [hdue]
        · rw [Function.update_noteq hp]
          rw [dueMask]
          have : ¬ (e.releaseFrame ≤ f ∧ e.port = p) := by
            intro hcon
            exact hp hcon.2.symm
          simp [this]
    · have ihr := ih mask2 hmask (fun e2 he2 => hbtn e2 (by simp [he2]))
      refine ⟨?_, fun p => ?_⟩
      · rw [processPendingReleases]
        simp only [hdue, if_neg, not_false_eq_true]
        rw [ihr.1, List.filter_cons]
        simp [lt_of_not_le hdue]
      · rw [processPendingReleases]
        simp only [hdue, if_neg, not_false_eq_true]
        rw [ihr.2 p]
        rw [dueMask]
        have : ¬ (e.releaseFrame ≤ f ∧ e.port = p) := by
          intro hcon
          exact hdue hcon.1
        simp [this]

theorem inputRelease_tick_c7_witness :
    ((processPendingReleases 9 [PendingRelease.mk 1 0x01 10]
        (fun _ => 0x01)).2 = [PendingRelease.mk 1 0x01 10]
    ∧ (processPendingReleases 9 [PendingRelease.mk 1 0x01 10]
        (fun _ => 0x01)).1 1 = 0x01)
    ∧ ((processPendingReleases 10 [PendingRelease.mk 1 0x01 10]
        (fun _ => 0x01)).2 = []
    ∧ (processPendingReleases 10 [PendingRelease.mk 1 0x01 10]
        (fun _ => 0x01)).1 1 = 0x00) := by
  have hm : ∀ p, (fun _ => 0x01 : Nat → Nat) p < 256 := by
    intro p
    norm_num
  have hb : ∀ e ∈ [PendingRelease.mk 1 0x01 10], e.buttonMask < 256 := by
    intro e he
    simp at he
    rw [he]
    norm_num
  have h9 := inputRelease_tick_c7 9 [PendingRelease.mk 1 0x01 10]
    (fun _ => 0x01) hm hb
  have h10 := inputRelease_tick_c7 10 [PendingRelease.mk 1 0x01 10]
    (fun _ => 0x01) hm hb
  refine ⟨⟨?_, ?_⟩, ?_, ?_⟩
  · rw [h9.1]; rfl
  · rw [h9.2 1]; rfl
  · rw [h10.1]; rfl
  · rw [h10.2 1]; rfl

/-! ## Press-duration scheduling (Commands/InputCommands.cpp) -/

/-- The frame count `InputPressCommand::execute` holds a press with a
positive duration (InputCommands.cpp:210-213): the code approximates the
~16.67 ms NTSC frame with 17 ms and computes `(durationMs + 16) / 17`,
raised to at least 1. -/
def pressDurationFrames (durationMs : Nat) : Nat :=
  let frames := (durationMs + 16) / 17
  if frames < 1 then 1 else frames

/-- The release frame scheduled by `InputPressCommand::execute`
(InputCommands.cpp:208-220): `currFrameCounter + frames` for a positive
duration, the very next frame otherwise. -/
def inputPressReleaseFrame (currFrameCounter durationMs : Nat) : Nat :=
  if 0 < durationMs then currFrameCounter + pressDurationFrames durationMs
  else currFrameCounter + 1

/-- The effect of `InputPressCommand::execute` (InputCommands.cpp:188-233)
on the overlay state and the pending-release list: force the buttons on
via the overlay and append one pending release entry for them. -/
def inputPressExecute (s : InputApiState) (pending : List PendingRelease)
    (currFrameCounter portZero buttonMask durationMs : Nat) :
    InputApiState × List PendingRelease :=
  let rf := inputPressReleaseFrame currFrameCounter durationMs
  (FCEU_ApiSetJoypad s portZero buttonMask true,
   pending ++ [PendingRelease.mk portZero buttonMask rf])

/-- The duration-to-frames conversion as claim C8 words it: the duration
divided by the nominal 60 Hz frame time of about 16.67 ms (50/3 ms),
rounded up, with a minimum of one frame: `max 1 (ceil (3*d/50))`.
This definition follows the claim text, not the code; it exists to be
compared against `pressDurationFrames`. -/
def claimNominalFrames (durationMs : Nat) : Nat :=
  max 1 ((3 * durationMs + 49) / 50)

/-- C8 counterexample: at a positive duration of 17 ms the code schedules
the release 1 frame ahead, while the 16.67 ms round-up conversion of the
claim demands 2 frames; the claimed equation is false at
currFrameCounter = 0, durationMs = 17. -/
theorem inputPress_nominal_mismatch_c8 :
    (inputPressExecute FCEU_ApiInputInit [] 0 0 0x01 17).2
        = [PendingRelease.mk 0 0x01 1]
    ∧ claimNominalFrames 17 = 2
    ∧ ¬ inputPressReleaseFrame 0 17 = 0 + claimNominalFrames 17 := by
  refine ⟨?_, by decide, by decide⟩
  simp only [inputPressExecute]
  decide

/-- C8 (amended): for a positive duration the scheduled release frame is
currFrameCounter plus `(durationMs + 16) / 17` — the duration rounded up
with the 17 ms-per-frame approximation of the 60 Hz frame time the code
uses — which is at least one frame, covers the whole duration, and is the
least frame count doing so; duration 100 ms still gives
currFrameCounter + 6 as the claim says. -/
theorem inputPress_schedule_c8 (s : InputApiState)
    (pending : List PendingRelease) (curr portZero mask d : Nat)
    (hd : 0 < d) :
    (inputPressExecute s pending curr portZero mask d).2
        = pending ++ [PendingRelease.mk portZero mask (curr + (d + 16) / 17)]
    ∧ 1 ≤ (d + 16) / 17
    ∧ d ≤ 17 * ((d + 16) / 17)
    ∧ 17 * ((d + 16) / 17) < d + 17
    ∧ inputPressReleaseFrame curr 100 = curr + 6 := by
  have h1 : 1 ≤ (d + 16) / 17 := by omega
  refine ⟨?_, h1, by omega, by omega, ?_⟩
  · simp [inputPressExecute, inputPressReleaseFrame, pressDurationFrames,
      hd, Nat.not_lt.mpr h1]
  · norm_num [inputPressReleaseFrame, pressDurationFrames]

theorem inputPress_schedule_c8_witness :
    0 < 100
    ∧ (inputPressExecute FCEU_ApiInputInit [] 0 0 0x01 100).2
        = [PendingRelease.mk 0 0x01 6] := by
  refine ⟨by decide, ?_⟩
  have h := (inputPress_schedule_c8 FCEU_ApiInputInit [] 0 0 0x01 100
    (by decide)).1
  rw [h]
  decide

/-! ## Bounds-checked memory writes (Commands/MemoryRangeCommands.cpp) -/

/-- `MAX_MEMORY_RANGE_LENGTH` (MemoryRangeCommands.h:14). -/
def MAX_MEMORY_RANGE_LENGTH : Nat := 4096

/-- `MemoryRangeWriteCommand::isWriteSafe` (MemoryRangeCommands.cpp:183-197).
`lastAddress` is a `uint16_t` holding `start + length - 1`, i.e. that value
modulo 2^16; the `+ 65535` realises the `- 1` without Nat truncation.  Per
the TODO at line 193, SRAM (0x6000-0x7FFF) is NOT accepted: only a range
ending in RAM (last address <= 0x07FF) passes. -/
def isWriteSafe (start length : Nat) : Bool :=
  if start + length > 0x10000 then false
  else
    let lastAddress := (start + length + 65535) % 65536
    if lastAddress ≤ 0x07FF then true else false

/-- `MemoryWriteResult` (MemoryRangeCommands.h:46-58). -/
structure MemoryWriteResult where
  success : Bool
  start : Nat
  bytesWritten : Nat
  error : String
deriving DecidableEq, Inhabited

/-- The sequence of `FCEU_CheatSetByte(startAddress + i, data[i])` calls
performed by the write loop (MemoryRangeCommands.cpp:230-233), as
(address, value) pairs in order. -/
def writeTrace (startAddress : Nat) (data : List Nat) : List (Nat × Nat) :=
  data.enum.map (fun p => (startAddress + p.1, p.2))

/-- `MemoryRangeWriteCommand::execute` (MemoryRangeCommands.cpp:199-240).
`gameLoaded` models `GameInfo != nullptr`; `battery` models
`GameInfo->battery` (whether the loaded cartridge is battery-backed),
which the current code never consults (TODO at MemoryRangeCommands.cpp:193).
The result is the thrown error or the success result, paired with the
write trace — empty exactly when no byte was modified. -/
def memoryRangeWriteExecute (gameLoaded battery : Bool)
    (startAddress : Nat) (data : List Nat) :
    Except String MemoryWriteResult × List (Nat × Nat) :=
  if data.isEmpty then (Except.error "No data to write", [])
  else if data.length > MAX_MEMORY_RANGE_LENGTH then
    (Except.error "Data size exceeds maximum allowed (4096 bytes)", [])
  else if gameLoaded = false then (Except.error "No game loaded", [])
  else if isWriteSafe startAddress data.length = false then
    (Except.error "Memory range is not safe to write", [])
  else
    (Except.ok (MemoryWriteResult.mk true startAddress data.length ""),
     writeTrace startAddress data)

/-- C1 counterexample: with a game loaded on a battery-backed cartridge, a
one-byte write to SRAM address 0x6000 — which the claim says must
succeed — is rejected with the unsafe-write error and no byte is
modified. -/
theorem memWrite_sram_rejected_c1 :
    isWriteSafe 0x6000 1 = false
    ∧ memoryRangeWriteExecute true true 0x6000 [0x12]
        = (Except.error "Memory range is not safe to write", []) := by
  constructor
  · decide
  · rfl

theorem isWriteSafe_iff (start len : Nat) (hlen : 1 ≤ len) :
    isWriteSafe start len = true ↔ start + len ≤ 0x0800 := by
  rw [isWriteSafe]
  split
  · rename_i h1
    simp only [Bool.false_eq_true, false_iff]
    omega
  · rename_i h1
    dsimp only
    split
    · rename_i h2
      simp only [true_iff]
      omega
    · rename_i h2
      simp only [Bool.false_eq_true, false_iff]
      omega

/-- C1 (amended): with a game loaded and a payload of 1 to 4096 bytes,
the write-safety check accepts exactly the writes lying entirely in main
RAM 0x0000-0x07FF; such writes succeed and write every byte, while a
write touching any other address — the whole SRAM window 0x6000-0x7FFF
included, battery-backed or not — is rejected with the unsafe-write error
before any byte is modified. -/
theorem memWrite_safety_c1 (gameLoaded battery : Bool) (startAddress : Nat)
    (data : List Nat) (hgl : gameLoaded = true) (hlen : 1 ≤ data.length)
    (hmax : data.length ≤ 4096) :
    (isWriteSafe startAddress data.length = true
        ↔ startAddress + data.length ≤ 0x0800)
    ∧ (startAddress + data.length ≤ 0x0800 →
        memoryRangeWriteExecute gameLoaded battery startAddress data
          = (Except.ok (MemoryWriteResult.mk true startAddress
              data.length ""), writeTrace startAddress data))
    ∧ (0x0800 < startAddress + data.length →
        memoryRangeWriteExecute gameLoaded battery startAddress data
          = (Except.error "Memory range is not safe to write", [])) := by
  have hne : data.isEmpty = false := by
    cases data with
    | nil => simp at hlen
    | cons d rest => rfl
  have hmax2 : ¬ data.length > MAX_MEMORY_RANGE_LENGTH := by
    rw [MAX_MEMORY_RANGE_LENGTH]
    omega
  refine ⟨isWriteSafe_iff _ _ hlen, ?_, ?_⟩
  · intro hsafe
    have hs : isWriteSafe startAddress data.length = true :=
      (isWriteSafe_iff _ _ hlen).mpr hsafe
    rw [memoryRangeWriteExecute, hne, hgl, hs]
    simp [hmax2]
  · intro hunsafe
    have hs : isWriteSafe startAddress data.length = false := by
      cases hq : isWriteSafe startAddress data.length with
      | false => rfl
      | true =>
        have := (isWriteSafe_iff _ _ hlen).mp hq
        omega
    rw [memoryRangeWriteExecute, hne, hgl, hs]
    simp [hmax2]

theorem memWrite_safety_c1_witness :
    (true = true ∧ 1 ≤ ([0x12, 0x34] : List Nat).length
      ∧ ([0x12, 0x34] : List Nat).length ≤ 4096
      ∧ 0x0300 + ([0x12, 0x34] : List Nat).length ≤ 0x0800)
    ∧ memoryRangeWriteExecute true false 0x0300 [0x12, 0x34]
        = (Except.ok (MemoryWriteResult.mk true 0x0300 2 ""),
           [(0x0300, 0x12), (0x0301, 0x34)]) := by
  refine ⟨⟨rfl, by decide, by decide, by decide⟩, ?_⟩
  have h := (memWrite_safety_c1 true false 0x0300 [0x12, 0x34] rfl
    (by decide) (by decide)).2.1 (by decide)
  rw [h]
  rfl

/-! ## Batch memory operations (Commands/MemoryRangeCommands.cpp) -/

/-- `BatchOperation` (MemoryRangeCommands.h:62-68): one requested
operation of a batch. -/
structure BatchOperation where
  type : String
  address : Nat
  length : Nat
  data : List Nat
deriving DecidableEq, Inhabited

/-- `BatchOperationResult` (MemoryRangeCommands.h:71-80): the per-item
result entry.  `bytesWritten` is only meaningful for successful writes
(the C++ leaves it unset on reads); it is 0 in every other case here. -/
structure BatchOperationResult where
  type : String
  success : Bool
  address : Nat
  data : List Nat
  bytesWritten : Nat
  error : String
deriving DecidableEq, Inhabited

/-- `MemoryBatchCommand::executeRead` (MemoryRangeCommands.cpp:248-282):
validate length and bounds, reporting a failed entry with the thrown
message, else read `length` bytes from `address` on. -/
def MemoryBatchCommand.executeRead (mem : Nat → Nat) (op : BatchOperation) :
    BatchOperationResult :=
  if op.length = 0 then
    BatchOperationResult.mk "read" false op.address [] 0
      "Length must be greater than 0"
  else if op.length > MAX_MEMORY_RANGE_LENGTH then
    BatchOperationResult.mk "read" false op.address [] 0
      "Length exceeds maximum allowed"
  else if op.address + op.length > 0x10000 then
    BatchOperationResult.mk "read" false op.address [] 0
      "Address range exceeds memory bounds"
  else
    let bytes := (List.range op.length).map (fun i => mem (op.address + i))
    BatchOperationResult.mk "read" true op.address bytes 0 ""

/-- The memory after the sequential `FCEU_CheatSetByte(start + i, data[i])`
loop (MemoryRangeCommands.cpp:306-309). -/
def applyWrites (mem : Nat → Nat) (startAddress : Nat) (data : List Nat) :
    Nat → Nat :=
  data.enum.foldl (fun m p => Function.update m (startAddress + p.1) p.2) mem

/-- `MemoryBatchCommand::executeWrite` (MemoryRangeCommands.cpp:284-318):
validate the payload and the write-safety policy, reporting a failed
entry with the thrown message, else write the bytes. -/
def MemoryBatchCommand.executeWrite (mem : Nat → Nat) (op : BatchOperation) :
    BatchOperationResult × (Nat → Nat) :=
  if op.data.isEmpty then
    (BatchOperationResult.mk "write" false op.address [] 0
      "No data to write", mem)
  else if op.data.length > MAX_MEMORY_RANGE_LENGTH then
    (BatchOperationResult.mk "write" false op.address [] 0
      "Data size exceeds maximum allowed", mem)
  else if isWriteSafe op.address op.data.length = false then
    (BatchOperationResult.mk "write" false op.address [] 0
      "Memory range is not safe to write", mem)
  else
    (BatchOperationResult.mk "write" true op.address [] op.data.length "",
     applyWrites mem op.address op.data)

/-- One iteration of the batch loop (MemoryRangeCommands.cpp:343-355):
dispatch on the operation type; an unknown type yields a failed entry
carrying that type. -/
def batchStep (mem : Nat → Nat) (op : BatchOperation) :
    BatchOperationResult × (Nat → Nat) :=
  if op.type = "read" then (MemoryBatchCommand.executeRead mem op, mem)
  else if op.type = "write" then MemoryBatchCommand.executeWrite mem op
  else
    (BatchOperationResult.mk op.type false op.address [] 0
      "Unknown operation type", mem)

/-- The whole batch loop (MemoryRangeCommands.cpp:342-356): run the
operations in submission order, threading the memory, collecting one
result entry per operation in order. -/
def MemoryBatchCommand.runOps (mem : Nat → Nat) :
    List BatchOperation → List BatchOperationResult × (Nat → Nat)
  | [] => ([], mem)
  | op :: rest =>
    let r := batchStep mem op
    let r2 := MemoryBatchCommand.runOps r.2 rest
    (r.1 :: r2.1, r2.2)

/-- `MemoryBatchCommand::execute` (MemoryRangeCommands.cpp:320-363):
reject an empty batch, a batch of more than 100 operations, and the
no-game state as a whole; otherwise run every operation. -/
def MemoryBatchCommand.execute (gameLoaded : Bool)
    (ops : List BatchOperation) (mem : Nat → Nat) :
    Except String (List BatchOperationResult × (Nat → Nat)) :=
  if ops.isEmpty then Except.error "No operations provided"
  else if ops.length > 100 then
    Except.error "Too many operations (maximum 100)"
  else if gameLoaded = false then Except.error "No game loaded"
  else Except.ok (MemoryBatchCommand.runOps mem ops)

/-- The validation predicate a batch operation must pass, read off the
checks of executeRead / executeWrite / the dispatch
(MemoryRangeCommands.cpp:253-266, 295-303, 348-355). -/
def batchOpValid (op : BatchOperation) : Bool :=
  if op.type = "read" then
    decide (0 < op.length) && decide (op.length ≤ MAX_MEMORY_RANGE_LENGTH)
      && decide (op.address + op.length ≤ 0x10000)
  else if op.type = "write" then
    decide (0 < op.data.length)
      && decide (op.data.length ≤ MAX_MEMORY_RANGE_LENGTH)
      && isWriteSafe op.address op.data.length
  else false

theorem batchStep_fields (mem : Nat → Nat) (op : BatchOperation) :
    (batchStep mem op).1.type = op.type
    ∧ (batchStep mem op).1.address = op.address
    ∧ ((batchStep mem op).1.success = true ↔ batchOpValid op = true)
    ∧ (batchOpValid op = false → (batchStep mem op).1.error ≠ "") := by
  by_cases hr : op.type = "read"
  · rw [batchStep, batchOpValid]
    simp only [hr, if_pos]
    rw [MemoryBatchCommand.executeRead]
    by_cases h1 : op.length = 0
    · simp [h1]
    · by_cases h2 : op.length > MAX_MEMORY_RANGE_LENGTH
      · simp [h1, h2]
      · by_cases h3 : op.address + op.length > 0x10000
        · simp [h1, h2, h3]
        · simp [h1, h2, h3]
          omega
  · by_cases hw : op.type = "write"
    · rw [batchStep, batchOpValid]
      simp only [hr, hw, if_neg, if_pos, not_false_eq_true]
      rw [MemoryBatchCommand.executeWrite]
      by_cases h1 : op.data.isEmpty
      · have h1e : op.data.length = 0 := by
          cases hd : op.data with
          | nil => rfl
          | cons d rest => rw [hd] at h1; simp at h1
        simp [h1, h1e]
      · have h1e : 0 < op.data.length := by
          cases hd : op.data with
          | nil => rw [hd] at h1; simp at h1
          | cons d rest => simp
        by_cases h2 : op.data.length > MAX_MEMORY_RANGE_LENGTH
        · simp [h1, h2]
        · by_cases h3 : isWriteSafe op.address op.data.length = false
          · simp [h1, h2, h3, h1e]
          · have h3t : isWriteSafe op.address op.data.length = true := by
              cases hq : isWriteSafe op.address op.data.length with
              | false => exact absurd hq h3
              | true => rfl
            simp [h1, h2, h3, h1e, h3t]
            omega
    · rw [batchStep, batchOpValid]
      simp [hr, hw]

theorem runOps_facts (ops : List BatchOperation) : ∀ (mem : Nat → Nat),
    (MemoryBatchCommand.runOps mem ops).1.length = ops.length
    ∧ ∀ i, i < ops.length →
        ((MemoryBatchCommand.runOps mem ops).1.getD i default).type
            = (ops.getD i default).type
        ∧ ((MemoryBatchCommand.runOps mem ops).1.getD i default).address
            = (ops.getD i default).address
        ∧ (((MemoryBatchCommand.runOps mem ops).1.getD i default).success
            = true ↔ batchOpValid (ops.getD i default) = true)
        ∧ (batchOpValid (ops.getD i default) = false →
            ((MemoryBatchCommand.runOps mem ops).1.getD i default).error
              ≠ "") := by
  induction ops with
  | nil =>
    intro mem
    exact ⟨rfl, fun i hi => absurd hi (by simp)⟩
  | cons op rest ih =>
    intro mem
    constructor
    · rw [MemoryBatchCommand.runOps]
      simp only [List.length_cons]
      rw [(ih (batchStep mem op).2).1]
    · intro i hi
      cases i with
      | zero =>
        rw [MemoryBatchCommand.runOps]
        simp only [List.getD_cons_zero]
        exact batchStep_fields mem op
      | succ j =>
        rw [MemoryBatchCommand.runOps]
        simp only [List.getD_cons_succ]
        exact (ih (batchStep mem op).2).2 j (by simp at hi; omega)

/-- C9: a batch of 1 to 100 operations is not rejected as a whole: it
produces exactly one result entry per operation, in order, each carrying
the type and address of its operation; an entry succeeds exactly when its
own operation passes validation, a failing operation yields an error
string without stopping the following operations, and a batch of more
than 100 operations is rejected as a whole. -/
theorem memBatch_isolation_c9 (ops : List BatchOperation) (mem : Nat → Nat)
    (h1 : 1 ≤ ops.length) (h100 : ops.length ≤ 100) :
    MemoryBatchCommand.execute true ops mem
        = Except.ok (MemoryBatchCommand.runOps mem ops)
    ∧ (MemoryBatchCommand.runOps mem ops).1.length = ops.length
    ∧ (∀ i, i < ops.length →
        ((MemoryBatchCommand.runOps mem ops).1.getD i default).type
            = (ops.getD i default).type
        ∧ ((MemoryBatchCommand.runOps mem ops).1.getD i default).address
            = (ops.getD i default).address
        ∧ (((MemoryBatchCommand.runOps mem ops).1.getD i default).success
            = true ↔ batchOpValid (ops.getD i default) = true)
        ∧ (batchOpValid (ops.getD i default) = false →
            ((MemoryBatchCommand.runOps mem ops).1.getD i default).error
              ≠ ""))
    ∧ (∀ ops2 : List BatchOperation, 100 < ops2.length →
        MemoryBatchCommand.execute true ops2 mem
          = Except.error "Too many operations (maximum 100)") := by
  have hne : ops.isEmpty = false := by
    cases ops with
    | nil => simp at h1
    | cons op rest => rfl
  have hle : ¬ ops.length > 100 := by omega
  refine ⟨?_, (runOps_facts ops mem).1, (runOps_facts ops mem).2, ?_⟩
  · rw [MemoryBatchCommand.execute, hne]
    simp [hle]
  · intro ops2 hbig
    have hne2 : ops2.isEmpty = false := by
      cases ops2 with
      | nil => simp at hbig
      | cons op rest => rfl
    rw [MemoryBatchCommand.execute, hne2]
    simp [hbig]

/-- A three-operation example batch: a valid one-byte read, a write into
the rejected region at 0x8000, a valid one-byte read. -/
def exampleBatch : List BatchOperation :=
  [BatchOperation.mk "read" 0x0010 1 [],
   BatchOperation.mk "write" 0x8000 0 [0x55],
   BatchOperation.mk "read" 0x0020 1 []]

/-- An all-zero memory. -/
def memZero : Nat → Nat := fun _ => 0

theorem memBatch_isolation_c9_witness :
    (1 ≤ exampleBatch.length ∧ exampleBatch.length ≤ 100)
    ∧ (MemoryBatchCommand.runOps memZero exampleBatch).1.length = 3
    ∧ ((MemoryBatchCommand.runOps memZero exampleBatch).1.getD 0
        default).success = true
    ∧ ¬ ((MemoryBatchCommand.runOps memZero exampleBatch).1.getD 1
        default).success = true
    ∧ ((MemoryBatchCommand.runOps memZero exampleBatch).1.getD 2
        default).success = true := by
  have h := memBatch_isolation_c9 exampleBatch memZero (by decide)
    (by decide)
  refine ⟨⟨by decide, by decide⟩, h.2.1, ?_, ?_, ?_⟩
  · exact (h.2.2.1 0 (by decide)).2.2.1.mpr (by decide)
  · intro hs
    have := (h.2.2.1 1 (by decide)).2.2.1.mp hs
    exact absurd this (by decide)
  · exact (h.2.2.1 2 (by decide)).2.2.1.mpr (by decide)

/-! ## CPU address parsing (Utils/AddressParser.cpp) -/

/-- ASCII whitespace as QString::trimmed treats it. -/
def isSpaceChar (c : Char) : Bool :=
  c = ' ' || c = '\t' || c = '\n' || c = '\r' || c = '\x0b' || c = '\x0c'

/-- `QString::trimmed` on ASCII input: strip leading and trailing
whitespace (AddressParser.cpp:11). -/
def qtrimmed (s : List Char) : List Char :=
  ((s.dropWhile isSpaceChar).reverse.dropWhile isSpaceChar).reverse

/-- The value of a character as a digit of the given base, `none` when it
is no such digit (the digits strtoul accepts). -/
def digitVal? (base : Nat) (c : Char) : Option Nat :=
  let v :=
    if '0' ≤ c ∧ c ≤ '9' then some (c.toNat - '0'.toNat)
    else if 'a' ≤ c ∧ c ≤ 'z' then some (c.toNat - 'a'.toNat + 10)
    else if 'A' ≤ c ∧ c ≤ 'Z' then some (c.toNat - 'A'.toNat + 10)
    else none
  match v with
  | some d => if d < base then some d else none
  | none => none

/-- The 0x/0X marker strtoul consumes in base 16, only when a hex digit
follows it. -/
def hexMarkStrip : List Char → List Char
  | '0' :: 'x' :: c :: rest =>
    if (digitVal? 16 c).isSome then c :: rest else '0' :: 'x' :: c :: rest
  | '0' :: 'X' :: c :: rest =>
    if (digitVal? 16 c).isSome then c :: rest else '0' :: 'X' :: c :: rest
  | s => s

/-- The digit-accumulation loop of strtoul. -/
def parseDigitsAll (base : Nat) : List Char → Nat → Option Nat
  | [], acc => some acc
  | c :: rest, acc =>
    match digitVal? base c with
    | some d => parseDigitsAll base rest (acc * base + d)
    | none => none

/-- C `strtoul(str, &endPtr, base)` as parseAddress consumes it
(AddressParser.cpp:119-128): `some v` exactly when the whole string is one
number — parseAddress rejects a conversion that is empty
(`endPtr == str`) or leaves trailing characters (`*endPtr != 0`).  The
subject is optional whitespace, an optional sign, an optional 0x/0X in
base 16, then digits; the value is reduced to the unsigned-long range (a
minus sign wraps, an overflow clamps — both only ever lead parseAddress
to one of its reject branches). -/
def strtoulAll (base : Nat) (s0 : List Char) : Option Nat :=
  let s1 := s0.dropWhile isSpaceChar
  let signAndRest : Bool × List Char :=
    match s1 with
    | '-' :: rest => (true, rest)
    | '+' :: rest => (false, rest)
    | _ => (false, s1)
  let s3 := if base = 16 then hexMarkStrip signAndRest.2 else signAndRest.2
  match s3 with
  | [] => none
  | c :: rest =>
    match digitVal? base c with
    | none => none
    | some d =>
      match parseDigitsAll base rest d with
      | none => none
      | some v =>
        let uv := if v < 2 ^ 64 then v else 2 ^ 64 - 1
        some (if signAndRest.1 then (2 ^ 64 - uv) % 2 ^ 64 else uv)

/-- The address windows parseAddress accepts (AddressParser.cpp:133-136):
RAM 0x0000-0x07FF and the SRAM window 0x6000-0x7FFF. -/
def inCpuWindow (a : Nat) : Bool :=
  decide (a ≤ 0x07FF) || (decide (0x6000 ≤ a) && decide (a ≤ 0x7FFF))

/-- `QString::startsWith("0x", CaseInsensitive)` (AddressParser.cpp:25). -/
def startsWithHexMark : List Char → Bool
  | '0' :: c :: _ => c = 'x' || c = 'X'
  | _ => false

/-- The base-detection heuristic of parseAddress
(AddressParser.cpp:24-107): a 0x marker forces base 16; any non-hex
character leaves base 10; hex letters force base 16; an all-digit string
is tried in both bases against the valid windows, ties broken toward hex
for strings ending in 00 whose hex value is at most 0x7FF. -/
def detectBase (trimmed : List Char) : Nat :=
  if startsWithHexMark trimmed then 16
  else
    let allValidHex := trimmed.all (fun c => (digitVal? 16 c).isSome)
    let hasHexLetters := trimmed.any (fun c =>
      ('A' ≤ c && c ≤ 'F') || ('a' ≤ c && c ≤ 'f'))
    if allValidHex = false then 10
    else if hasHexLetters then 16
    else
      let hexValid :=
        match strtoulAll 16 trimmed with
        | some v => decide (v ≤ 0xFFFF) && inCpuWindow v
        | none => false
      let decValid :=
        match strtoulAll 10 trimmed with
        | some v => decide (v ≤ 0xFFFF) && inCpuWindow v
        | none => false
      if hexValid = false && decValid = false then 10
      else if hexValid && decValid = false then 16
      else if decValid && hexValid = false then 10
      else
        let hexValue := (strtoulAll 16 trimmed).getD 0
        if (['0', '0'].isSuffixOf trimmed) && decide (hexValue ≤ 0x7FF)
        then 16 else 10

/-- The bytes handed to the final strtoul call
(AddressParser.cpp:111-116): the trimmed string with a leading 0x/0X
stripped. -/
def parseSubject (trimmed : List Char) : List Char :=
  if startsWithHexMark trimmed then trimmed.drop 2 else trimmed

/-- The checks after the final conversion (AddressParser.cpp:122-144):
reject values beyond 16 bits, then accept exactly the RAM and SRAM
windows. -/
def rangeCheck (value : Nat) : Except String Nat :=
  if value > 0xFFFF then Except.error "Address out of 16-bit range"
  else if inCpuWindow value = false then
    Except.error "Address not in valid memory range"
  else Except.ok value

/-- `parseAddress` (AddressParser.cpp:8-145): trim, reject the empty
string, pick the base, convert with strtoul demanding full consumption,
then apply the range checks.  Error strings are abbreviated forms of the
thrown messages. -/
def parseAddress (addressStr : List Char) : Except String Nat :=
  let trimmed := qtrimmed addressStr
  if trimmed.isEmpty then Except.error "Empty address string"
  else
    match strtoulAll (detectBase trimmed) (parseSubject trimmed) with
    | none => Except.error "Invalid address format"
    | some value => rangeCheck value

/-- The memory read route handler (FceuxApiServer.cpp:57-70): the URL
address is parsed first; only on success is a MemoryReadCommand created,
carrying the parsed address — a parse failure is turned into an HTTP
error response with no command created. -/
def memoryReadRouteCommand (addressStr : List Char) : Option Nat :=
  match parseAddress addressStr with
  | Except.ok a => some a
  | Except.error _ => none

theorem rangeCheck_ok (v a : Nat) (h : rangeCheck v = Except.ok a) :
    inCpuWindow a = true := by
  rw [rangeCheck] at h
  split at h
  · exact absurd h (by simp)
  · split at h
    · exact absurd h (by simp)
    · rename_i hw
      simp only [Except.ok.injEq] at h
      rw [← h]
      cases hq : inCpuWindow v with
      | false => exact absurd hq hw
      | true => rfl

theorem parseAddress_ok_window (s : List Char) (a : Nat)
    (h : parseAddress s = Except.ok a) : inCpuWindow a = true := by
  rw [parseAddress] at h
  split at h
  · exact absurd h (by simp)
  · split at h
    · exact absurd h (by simp)
    · rename_i v hv
      exact rangeCheck_ok v a h

/-- C10: whatever the input string, parseAddress either fails or returns
an address inside RAM 0x0000-0x07FF or SRAM 0x6000-0x7FFF — never one in
0x0800-0x5FFF nor at or above 0x8000 — and the memory read route creates
a command only for such addresses. -/
theorem parseAddress_range_c10 (s : List Char) (a : Nat)
    (h : parseAddress s = Except.ok a) :
    (a ≤ 0x07FF ∨ (0x6000 ≤ a ∧ a ≤ 0x7FFF))
    ∧ ¬ (0x0800 ≤ a ∧ a ≤ 0x5FFF)
    ∧ a < 0x8000
    ∧ ∀ t : List Char, ∀ b : Nat, memoryReadRouteCommand t = some b →
        (b ≤ 0x07FF ∨ (0x6000 ≤ b ∧ b ≤ 0x7FFF)) := by
  have hwin : ∀ c : Nat, inCpuWindow c = true →
      (c ≤ 0x07FF ∨ (0x6000 ≤ c ∧ c ≤ 0x7FFF)) := by
    intro c hc
    rw [inCpuWindow] at hc
    simp at hc
    omega
  have ha := hwin a (parseAddress_ok_window s a h)
  refine ⟨ha, by omega, by omega, ?_⟩
  intro t b hb
  rw [memoryReadRouteCommand] at hb
  split at hb
  · rename_i b2 hb2
    simp only [Option.some.injEq] at hb
    rw [← hb]
    exact hwin b2 (parseAddress_ok_window t b2 hb2)
  · exact absurd hb (by simp)

theorem parseAddress_range_c10_witness :
    parseAddress ['0', 'x', '0', '3', '0', '0'] = Except.ok 0x0300
    ∧ (0x0300 ≤ 0x07FF ∨ (0x6000 ≤ 0x0300 ∧ 0x0300 ≤ 0x7FFF)) := by
  refine ⟨by rfl, ?_⟩
  exact (parseAddress_range_c10 ['0', 'x', '0', '3', '0', '0'] 0x0300
    (by rfl)).1
